import Mathlib

/-!
Verification of the retrieval-orchestration pipeline of the Endee RAG
repository against its natural-language specification.

The Python sources are shallowly embedded as executable Lean definitions:

* EmbeddingService.chunk_document (src/embedding_service.py) becomes a
  fuel-indexed loop over the document's characters; the fuel models the
  possibility that the Python while-loop does not terminate (the code never
  validates chunk_size against overlap, so a non-positive step can loop
  forever).  A result of some chunks means the loop terminated with those
  chunks; none means the fuel ran out.
* RAGService.ingest_document, RAGService.search and the startup health
  polling of RAGService (src/rag_service.py) become pure functions over
  oracles for the external collaborators (embedder, vector store, LLM
  client, wall clock).
* EndeeClient.health_check and EndeeClient.create_index
  (src/endee_client.py) become functions of the outcome of the underlying
  HTTP request.
* The ingest route of the FastAPI layer (src/main.py) is embedded as far as
  its input validation, which the claims about validation refer to.

Python ints are modelled as Int, Python floats (wall-clock readings) as Rat,
strings as String or List Char (the latter where character slicing matters).
-/

set_option maxRecDepth 100000

namespace Settings

/-- Default chunk size from src/config.py line 25. -/
def chunk_size : Int := 512

/-- Default chunk overlap from src/config.py line 26. -/
def chunk_overlap : Int := 50

/-- Default number of search results from src/config.py line 27. -/
def top_k_results : Nat := 5

end Settings

namespace EmbeddingService

/-- Metadata-carrying chunk as built by EmbeddingService.chunk_document
(src/embedding_service.py lines 80-90).  The Python dict fields id, content
and metadata.document_name / chunk_index / original_length / start_pos /
end_pos are flattened into one record; the id field (a fresh uuid4 per call,
pure nondeterministic identity) is not modelled, no claim mentions it. -/
structure Chunk where
  content : List Char
  document_name : String
  chunk_index : Nat
  original_length : Nat
  start_pos : Int
  end_pos : Int
  deriving DecidableEq

/-- Clamp one Python slice endpoint to an index of a list of length n:
negative endpoints count from the end, endpoints beyond the list clamp to n.
This is the standard Python semantics of the endpoints of s[a:b]. -/
def pyIdx (n : Nat) (a : Int) : Nat :=
  if a < 0 then ((n : Int) + a).toNat else min a.toNat n

/-- Python slice s[a:b] on a list of characters. -/
def pySlice (s : List Char) (a b : Int) : List Char :=
  (s.take (pyIdx s.length b)).drop (pyIdx s.length a)

/-- One Python while-iteration of EmbeddingService.chunk_document
(src/embedding_service.py lines 75-95), indexed by fuel.  The cursor i runs
over the content; each iteration emits the chunk spanning
[i, min (i + chunkSize) len), breaks when that chunk reaches the end of the
content, and otherwise advances i by chunkSize - overlap.  none means the
fuel was exhausted before the loop finished. -/
def chunkLoop (dn : String) (content : List Char) (cs ov : Int) :
    Nat → Int → List Chunk → Option (List Chunk)
  | 0, _, _ => none
  | fuel + 1, i, acc =>
    if i < (content.length : Int) then
      if (content.length : Int) ≤ min (i + cs) (content.length : Int) then
        some (acc ++ [⟨pySlice content i (min (i + cs) (content.length : Int)),
          dn, acc.length, content.length, i, min (i + cs) (content.length : Int)⟩])
      else
        chunkLoop dn content cs ov fuel (i + (cs - ov))
          (acc ++ [⟨pySlice content i (min (i + cs) (content.length : Int)),
            dn, acc.length, content.length, i, min (i + cs) (content.length : Int)⟩])
    else some acc

/-- EmbeddingService.chunk_document (src/embedding_service.py lines 53-98).
The source performs no validation of chunk_size or overlap; it just runs the
cursor loop.  The fuel content.length + 1 is sufficient for every positive
step (each recursive iteration advances the cursor by at least one), so a
none result means the Python loop would not have terminated. -/
def chunk_document (dn : String) (content : List Char) (cs ov : Int) :
    Option (List Chunk) :=
  chunkLoop dn content cs ov (content.length + 1) 0 []

/-- Projection of a chunk to its (start_pos, end_pos, chunk_index) triple. -/
def chunkSpan (c : Chunk) : Int × Int × Nat :=
  (c.start_pos, c.end_pos, c.chunk_index)

end EmbeddingService

namespace RAGService

/-- Errors an ingest_document call can surface.  typeError is the Python
TypeError raised when a function is called with an unexpected keyword
argument; validationError stands for the ValidationError the specification
prescribes for empty caller input (no code path produces it). -/
inductive IngestError where
  | typeError
  | validationError
  deriving DecidableEq

/-- Result dict of RAGService.ingest_document (src/rag_service.py lines
119-123). -/
structure IngestResult where
  document_name : String
  chunks_added : Nat
  total_content_length : Nat
  deriving DecidableEq

/-- RAGService.ingest_document exactly as written (src/rag_service.py lines
71-123).  Its first statement calls EmbeddingService.chunk_document with the
keyword argument chunk_overlap, but that function's parameter is named
overlap (src/embedding_service.py line 58), so Python raises TypeError at
the call, before any chunking, embedding or insertion; the rest of the body
is dead code and no input is validated. -/
def ingest_document (documentName : String) (content : List Char)
    (sourceUrl : Option String) : Except IngestError IngestResult :=
  Except.error IngestError.typeError

/-- RAGService.ingest_document with the keyword slip corrected (overlap in
place of chunk_overlap), embedding the rest of the source body: chunk with
the configured size and overlap, embed the chunk texts through the Embedder
(an oracle supplying one vector list), zip chunks with embeddings into the
vectors to insert, insert them (an oracle outcome), and report
chunks_added = number of vectors and total_content_length = length of the
content.  The outer Option is inherited from the chunker's fuel. -/
def ingestFixed (documentName : String) (content : List Char)
    (embeddings : List (List Rat)) (insertOutcome : Except Unit Unit) :
    Option (Except Unit IngestResult) :=
  (EmbeddingService.chunk_document documentName content
      Settings.chunk_size Settings.chunk_overlap).map fun chunks =>
    match insertOutcome with
    | Except.error e => Except.error e
    | Except.ok _ =>
      Except.ok ⟨documentName, (chunks.zip embeddings).length, content.length⟩

/-- One search hit as returned by the vector store (id, score and the
content carried in its metadata). -/
structure SearchResult where
  id : String
  score : Rat
  content : Option String
  deriving DecidableEq

/-- Response dict of RAGService.search (src/rag_service.py lines 168-175). -/
structure RetrievalResponse where
  query : String
  results : List SearchResult
  generated_answer : Option String
  retrieval_time_ms : Rat
  total_time_ms : Rat
  result_count : Nat
  deriving DecidableEq

/-- The four successive time.time() readings RAGService.search takes:
t0 at entry, t1 just before the store search, t2 just after it, t3 just
before assembling the response. -/
structure Clock where
  t0 : Rat
  t1 : Rat
  t2 : Rat
  t3 : Rat
  deriving DecidableEq

/-- Resolution of the top_k argument (src/rag_service.py line 143):
Python's top_k or settings.top_k_results falls back to the default when
top_k is absent or zero (zero is falsy). -/
def resolveTopK : Option Nat → Nat
  | none => Settings.top_k_results
  | some k => if k = 0 then Settings.top_k_results else k

/-- RAGService._generate_answer (src/rag_service.py lines 177-224) as a
function of the LLM oracle: with no client it returns the string
"LLM not configured"; otherwise the OpenAI chat call either raises (error,
caught and collapsed to "Error generating answer"), or returns a message
content that is None or empty (Python falsy, collapsed to
"Unable to generate answer") or non-empty (returned as is).  The prompt
built from the query and the top-3 truncated contents only feeds the
oracle, so it is not materialised here. -/
def generate_answer (hasClient : Bool)
    (llmResult : Except Unit (Option String)) : String :=
  if hasClient = false then "LLM not configured"
  else
    match llmResult with
    | Except.ok (some s) => if s = "" then "Unable to generate answer" else s
    | Except.ok none => "Unable to generate answer"
    | Except.error _ => "Error generating answer"

/-- RAGService.search (src/rag_service.py lines 125-175) over oracles:
storeSearch maps the resolved k to the hits the store returns, llmResult is
the LLM oracle, clk the four wall-clock readings.  The answer is generated
only when use_llm is set, the results are non-empty and an OpenAI client is
configured; otherwise generated_answer stays None. -/
def search (query : String) (topK : Option Nat) (useLlm : Bool)
    (hasClient : Bool) (storeSearch : Nat → List SearchResult)
    (llmResult : Except Unit (Option String)) (clk : Clock) :
    RetrievalResponse :=
  let results := storeSearch (resolveTopK topK)
  { query := query
    results := results
    generated_answer :=
      if useLlm && !results.isEmpty && hasClient then
        some (generate_answer hasClient llmResult)
      else none
    retrieval_time_ms := (clk.t2 - clk.t1) * 1000
    total_time_ms := (clk.t3 - clk.t0) * 1000
    result_count := results.length }

/-- Maximum number of health-check attempts during startup
(src/rag_service.py line 51). -/
def maxRetries : Nat := 10

/-- The polling loop of the startup routine (src/rag_service.py lines
52-59): try at most n health checks starting at attempt k, returning the
index of the first healthy attempt, none when every attempt fails.  Each
failed attempt is followed by a fixed one-second sleep. -/
def findHealthy (health : Nat → Bool) : Nat → Nat → Option Nat
  | 0, _ => none
  | n + 1, k => if health k then some k else findHealthy health n (k + 1)

/-- The create-index request the startup routine issues on success
(src/rag_service.py lines 62-67). -/
structure CreateIndexCall where
  name : String
  dimension : Nat
  metric : String
  deriving DecidableEq

/-- Startup routine of RAGService (src/rag_service.py lines 46-69): poll the
health check up to maxRetries times; if no attempt is healthy raise
RuntimeError "Endee server is not responding" (the specification's
UnavailableError); on the first healthy attempt stop polling and create the
index with the embedder's reported dimension and the metric "cosine".  The
returned Nat is the number of health checks performed. -/
def initRag (indexName : String) (dim : Nat) (health : Nat → Bool) :
    Except String (Nat × CreateIndexCall) :=
  match findHealthy health maxRetries 0 with
  | some k => Except.ok (k + 1, ⟨indexName, dim, "cosine"⟩)
  | none => Except.error "Endee server is not responding"

end RAGService

namespace Api

/-- Outcome of the ingest route handler of src/main.py (lines 118-150) up to
the point where it either rejects the request or invokes the orchestrator. -/
inductive RouteResult where
  | badRequest (detail : String)
  | serviceCall (documentName content : String)
  deriving DecidableEq

/-- Input validation of the ingest route (src/main.py lines 138-139):
Python's not document_name or not content is true exactly when one of the
strings is empty, in which case the route answers HTTP 400 without calling
RAGService.ingest_document. -/
def ingest_route (documentName content : String) : RouteResult :=
  if documentName = "" || content = "" then
    RouteResult.badRequest "document_name and content are required"
  else RouteResult.serviceCall documentName content

end Api

namespace EndeeClient

/-- Outcome of the HTTP GET performed by EndeeClient.health_check: either
the server answered with some status code, or the request raised (timeout,
connection error, any exception at all - the source uses a bare except). -/
inductive HttpOutcome where
  | response (status : Nat)
  | raised
  deriving DecidableEq

/-- EndeeClient.health_check (src/endee_client.py lines 74-84): true exactly
when the request completed with status 200; every raised exception is caught
by the bare except and collapsed to false. -/
def health_check : HttpOutcome → Bool
  | HttpOutcome.response s => s == 200
  | HttpOutcome.raised => false

/-- EndeeClient.create_index (src/endee_client.py lines 86-117) as a
function of the outcome of the underlying POST: ok on success, and an
HTTPError with status 409 (index already exists) is swallowed, making the
call idempotent; any other HTTPError status is re-raised. -/
def create_index (outcome : Except Nat Unit) : Except Nat Unit :=
  match outcome with
  | Except.ok _ => Except.ok ()
  | Except.error status =>
    if status = 409 then Except.ok () else Except.error status

end EndeeClient

open EmbeddingService

section ChunkerLemmas

lemma chunkLoop_zero (dn : String) (content : List Char) (cs ov i : Int)
    (acc : List Chunk) : chunkLoop dn content cs ov 0 i acc = none := rfl

lemma chunkLoop_succ (dn : String) (content : List Char) (cs ov : Int)
    (fuel : Nat) (i : Int) (acc : List Chunk) :
    chunkLoop dn content cs ov (fuel + 1) i acc =
      if i < (content.length : Int) then
        if (content.length : Int) ≤ min (i + cs) (content.length : Int) then
          some (acc ++ [⟨pySlice content i (min (i + cs) (content.length : Int)),
            dn, acc.length, content.length, i, min (i + cs) (content.length : Int)⟩])
        else
          chunkLoop dn content cs ov fuel (i + (cs - ov))
            (acc ++ [⟨pySlice content i (min (i + cs) (content.length : Int)),
              dn, acc.length, content.length, i, min (i + cs) (content.length : Int)⟩])
      else some acc := rfl

/-- Slicing the whole list returns the list. -/
lemma pySlice_zero_len (s : List Char) :
    pySlice s 0 (s.length : Int) = s := by
  have h : ¬ ((s.length : Int) < 0) := not_lt.mpr (Int.natCast_nonneg _)
  simp [pySlice, pyIdx, h]

end ChunkerLemmas

/-- Claim C10: for every non-empty content whose length is at most
chunk_size, chunk_document terminates and emits exactly one chunk spanning
[0, len content) with chunk_index 0, for every overlap value (including
overlap greater than or equal to chunk_size): the loop breaks on reaching
the end of the content before the cursor is ever advanced. -/
theorem chunk_single_when_short (dn : String) (content : List Char)
    (cs ov : Int) (h1 : 0 < content.length)
    (h2 : (content.length : Int) ≤ cs) :
    chunk_document dn content cs ov =
      some [⟨content, dn, 0, content.length, 0, (content.length : Int)⟩] := by
  have hlen : (0 : Int) < (content.length : Int) := by exact_mod_cast h1
  have hmin : min ((0 : Int) + cs) (content.length : Int) =
      (content.length : Int) := by
    rw [zero_add]
    exact min_eq_right h2
  rw [chunk_document, chunkLoop_succ, if_pos hlen, hmin, if_pos le_rfl,
    pySlice_zero_len]
  simp

/-- Witness for C10 at the concrete input content = "a", chunk_size = 1,
overlap = 5 (a degenerate overlap far above the chunk size). -/
theorem chunk_single_when_short_witness :
    chunk_document "d" ['a'] 1 5 = some [⟨['a'], "d", 0, 1, 0, 1⟩] :=
  chunk_single_when_short "d" ['a'] 1 5 (by decide) (by decide)

/-- With overlap equal to chunk_size the cursor step is zero: on the content
"abc" with chunk_size 2 the loop re-enters forever at cursor 0, whatever the
fuel and whatever chunks have been accumulated. -/
lemma chunkLoop_abc_none :
    ∀ fuel : Nat, ∀ acc : List Chunk,
      chunkLoop "doc" ['a', 'b', 'c'] 2 2 fuel 0 acc = none := by
  intro fuel
  induction fuel with
  | zero => intro acc; rfl
  | succ n ih =>
    intro acc
    rw [chunkLoop_succ]
    norm_num
    exact ih _

/-- Claim C1, settled against the code: a call with overlap equal to (or
above) chunk_size does not fail with a ConfigurationError -
chunk_document performs no validation and has no error path at all.  On
content "ab" with chunk_size 2 and overlap 2 it terminates and returns one
chunk, and on content "abc" the loop never terminates (none at every
fuel). -/
theorem chunk_degenerate_no_config_error :
    chunk_document "doc" ['a', 'b'] 2 2 =
      some [⟨['a', 'b'], "doc", 0, 2, 0, 2⟩] ∧
    ∀ fuel : Nat, chunkLoop "doc" ['a', 'b', 'c'] 2 2 fuel 0 [] = none :=
  ⟨rfl, fun fuel => chunkLoop_abc_none fuel []⟩

/-- Witness for C1 at the concrete fuel 5: the degenerate loop on "abc" is
still running after five iterations. -/
theorem chunk_degenerate_no_config_error_witness :
    chunkLoop "doc" ['a', 'b', 'c'] 2 2 5 0 [] = none :=
  chunk_degenerate_no_config_error.2 5

/-- Claim C3, settled against the code: chunking 1000 characters with
chunk_size 512 and overlap 50 does produce exactly the three chunks with
start positions 0, 462, 924 (step 462), but ingest_document for that
content does not return chunks_added = 3: as written it fails with the
TypeError caused by the chunk_overlap keyword. -/
theorem chunk_thousand_and_ingest :
    (chunk_document "doc1" (List.replicate 1000 'a') 512 50).map
        (List.map chunkSpan) =
      some [(0, 512, 0), (462, 974, 1), (924, 1000, 2)] ∧
    RAGService.ingest_document "doc1" (List.replicate 1000 'a') none =
      Except.error RAGService.IngestError.typeError :=
  ⟨rfl, rfl⟩

/-- Claim C4, settled against the code: every ingest_document call fails
with the TypeError caused by passing the keyword chunk_overlap to a
parameter named overlap, so no successful call exists; with that keyword
corrected (ingestFixed), chunks_added equals the number of chunks the
chunker produced for the content under the configured size and overlap
(given one embedding per chunk text) and total_content_length equals the
character length of the content. -/
theorem ingest_count_invariant (dn : String) (content : List Char)
    (embeddings : List (List Rat)) :
    RAGService.ingest_document dn content none =
      Except.error RAGService.IngestError.typeError ∧
    (∀ chunks,
      chunk_document dn content Settings.chunk_size Settings.chunk_overlap =
        some chunks →
      embeddings.length = chunks.length →
      RAGService.ingestFixed dn content embeddings (Except.ok ()) =
        some (Except.ok ⟨dn, chunks.length, content.length⟩)) := by
  refine ⟨rfl, ?_⟩
  intro chunks hch hemb
  simp [RAGService.ingestFixed, hch, List.length_zip, hemb]

/-- Witness for C4 at the concrete input "hi" (one chunk, one embedding). -/
theorem ingest_count_invariant_witness :
    RAGService.ingestFixed "doc1" ['h', 'i'] [[0]] (Except.ok ()) =
      some (Except.ok ⟨"doc1", 1, 2⟩) :=
  (ingest_count_invariant "doc1" ['h', 'i'] [[0]]).2
    [⟨['h', 'i'], "doc1", 0, 2, 0, 2⟩] rfl rfl

/-- Counterexample to claim C7 as stated: an ingest call on the orchestrator
with empty document_name and empty content does not fail with a
ValidationError - as written it fails with the TypeError of the
chunk_overlap keyword, and no code path of RAGService.ingest_document
produces a ValidationError. -/
theorem ingest_empty_not_validation_error :
    RAGService.ingest_document "" [] none =
      Except.error RAGService.IngestError.typeError ∧
    RAGService.IngestError.typeError ≠
      RAGService.IngestError.validationError :=
  ⟨rfl, by decide⟩

/-- Claim C7 amended: the emptiness validation lives in the FastAPI ingest
route, not in the orchestrator - for empty document_name or content the
route answers HTTP 400 with detail "document_name and content are required"
before RAGService.ingest_document is invoked. -/
theorem ingest_route_validates (dn content : String)
    (h : dn = "" ∨ content = "") :
    Api.ingest_route dn content =
      Api.RouteResult.badRequest "document_name and content are required" := by
  rcases h with h | h <;> simp [Api.ingest_route, h]

/-- Witness for the amended C7 at the concrete input of an empty document
name with non-empty content. -/
theorem ingest_route_validates_witness :
    Api.ingest_route "" "some text" =
      Api.RouteResult.badRequest "document_name and content are required" :=
  ingest_route_validates "" "some text" (Or.inl rfl)

/-- Claim C9: health_check is total over every outcome of the HTTP request:
it returns true exactly when the server answered with status 200, and every
other outcome, including any raised exception, collapses to false. -/
theorem health_check_spec (o : EndeeClient.HttpOutcome) :
    (EndeeClient.health_check o = true ↔
      o = EndeeClient.HttpOutcome.response 200) ∧
    EndeeClient.health_check EndeeClient.HttpOutcome.raised = false := by
  refine ⟨?_, rfl⟩
  cases o with
  | response s => simp [EndeeClient.health_check]
  | raised => simp [EndeeClient.health_check]

/-- Witness for C9 at the concrete raised-exception outcome. -/
theorem health_check_spec_witness :
    EndeeClient.health_check EndeeClient.HttpOutcome.raised = false :=
  (health_check_spec EndeeClient.HttpOutcome.raised).2

/-- Claim C6: for every search response the retrieval time is at most the
total time, given that the four successive wall-clock readings taken by
search are non-decreasing: the retrieval interval (store search only) is
contained in the interval from entry to response assembly. -/
theorem search_timing_le (query : String) (topK : Option Nat)
    (useLlm hasClient : Bool)
    (storeSearch : Nat → List RAGService.SearchResult)
    (llmResult : Except Unit (Option String)) (clk : RAGService.Clock)
    (h01 : clk.t0 ≤ clk.t1) (h12 : clk.t1 ≤ clk.t2) (h23 : clk.t2 ≤ clk.t3) :
    (RAGService.search query topK useLlm hasClient storeSearch llmResult
        clk).retrieval_time_ms ≤
      (RAGService.search query topK useLlm hasClient storeSearch llmResult
        clk).total_time_ms := by
  show (clk.t2 - clk.t1) * 1000 ≤ (clk.t3 - clk.t0) * 1000
  linarith

/-- Witness for C6 at concrete clock readings 0, 1, 2, 3. -/
theorem search_timing_le_witness :
    (RAGService.search "q" none false false (fun _ => []) (Except.ok none)
        ⟨0, 1, 2, 3⟩).retrieval_time_ms ≤
      (RAGService.search "q" none false false (fun _ => []) (Except.ok none)
        ⟨0, 1, 2, 3⟩).total_time_ms :=
  search_timing_le "q" none false false (fun _ => []) (Except.ok none)
    ⟨0, 1, 2, 3⟩ (by norm_num) (by norm_num) (by norm_num)

/-- Counterexample to claim C5 as stated: with use_llm = true and non-empty
results, a search with no configured client leaves generated_answer as None
(no sentinel value is set), while a search whose LLM call raises sets it to
the string "Error generating answer" - so the claimed single sentinel
"answer unavailable" value does not exist. -/
theorem search_sentinel_counterexample :
    (RAGService.search "q" none true false (fun _ => [⟨"a", 1, none⟩])
        (Except.error ()) ⟨0, 0, 0, 0⟩).generated_answer = none ∧
    (RAGService.search "q" none true true (fun _ => [⟨"a", 1, none⟩])
        (Except.error ()) ⟨0, 0, 0, 0⟩).generated_answer =
      some "Error generating answer" ∧
    (none : Option String) ≠ some "Error generating answer" :=
  ⟨rfl, rfl, by simp⟩

/-- Claim C5 amended: in both degraded cases (no Answerer configured, or the
Answerer raising) search returns the complete response without raising;
generated_answer is None when no client is configured and the sentinel
string "Error generating answer" when the call raised - the failure never
propagates. -/
theorem search_llm_degradation (query : String) (topK : Option Nat)
    (hasClient : Bool) (storeSearch : Nat → List RAGService.SearchResult)
    (llmResult : Except Unit (Option String)) (clk : RAGService.Clock)
    (h : hasClient = false ∨ llmResult = Except.error ()) :
    ∃ resp,
      RAGService.search query topK true hasClient storeSearch llmResult clk =
        resp ∧
      resp.query = query ∧
      resp.results = storeSearch (RAGService.resolveTopK topK) ∧
      resp.result_count = (storeSearch (RAGService.resolveTopK topK)).length ∧
      (resp.generated_answer = none ∨
        resp.generated_answer = some "Error generating answer") := by
  refine ⟨_, rfl, rfl, rfl, rfl, ?_⟩
  rcases h with h | h
  · subst h
    left
    simp [RAGService.search]
  · subst h
    cases hc : hasClient with
    | false => left; simp [RAGService.search, hc]
    | true =>
      cases hE : (storeSearch (RAGService.resolveTopK topK)).isEmpty with
      | true => left; simp [RAGService.search, hE]
      | false =>
        right
        simp [RAGService.search, RAGService.generate_answer, hc, hE]

/-- Witness for the amended C5 at the no-client case. -/
theorem search_llm_degradation_witness :
    ∃ resp,
      RAGService.search "q" none true false (fun _ => []) (Except.ok none)
        ⟨0, 0, 0, 0⟩ = resp ∧
      resp.query = "q" ∧
      resp.results = (fun _ => ([] : List RAGService.SearchResult))
        (RAGService.resolveTopK none) ∧
      resp.result_count = ((fun _ => ([] : List RAGService.SearchResult))
        (RAGService.resolveTopK none)).length ∧
      (resp.generated_answer = none ∨
        resp.generated_answer = some "Error generating answer") :=
  search_llm_degradation "q" none false (fun _ => []) (Except.ok none)
    ⟨0, 0, 0, 0⟩ (Or.inl rfl)

/-- Exhausting all n attempts starting from attempt k finds no healthy one
when every one of them reports unhealthy. -/
lemma findHealthy_eq_none (health : Nat → Bool) :
    ∀ n k, (∀ j, j < n → health (k + j) = false) →
      RAGService.findHealthy health n k = none := by
  intro n
  induction n with
  | zero => intro k _; rfl
  | succ m ih =>
    intro k h
    have h0 : health k = false := by simpa using h 0 (Nat.succ_pos m)
    rw [RAGService.findHealthy, h0]
    simp only [Bool.false_eq_true, if_false]
    refine ih (k + 1) ?_
    intro j hj
    have e : k + (j + 1) = k + 1 + j := by omega
    have := h (j + 1) (by omega)
    rwa [e] at this

/-- A successful poll returns the first healthy attempt within the bound. -/
lemma findHealthy_some (health : Nat → Bool) :
    ∀ n k m, RAGService.findHealthy health n k = some m →
      k ≤ m ∧ m < k + n ∧ health m = true ∧
        ∀ j, k ≤ j → j < m → health j = false := by
  intro n
  induction n with
  | zero => intro k m h; exact absurd h (by simp [RAGService.findHealthy])
  | succ l ih =>
    intro k m h
    rw [RAGService.findHealthy] at h
    by_cases hk : health k = true
    · rw [if_pos hk] at h
      obtain rfl : k = m := Option.some.inj h
      exact ⟨le_rfl, by omega, hk,
        fun j hj1 hj2 => absurd (hj1.trans_lt hj2) (lt_irrefl k)⟩
    · rw [if_neg hk] at h
      obtain ⟨h1, h2, h3, h4⟩ := ih (k + 1) m h
      refine ⟨by omega, by omega, h3, ?_⟩
      intro j hj1 hj2
      rcases Nat.eq_or_lt_of_le hj1 with heq | hj
      · exact Bool.eq_false_iff.mpr (heq ▸ hk)
      · exact h4 j hj hj2

/-- Claim C8: the startup routine polls the health check at most maxRetries
(ten) times with a fixed one-second delay between attempts; when every
attempt within the bound is unhealthy it fails with the fatal RuntimeError
(the specification's UnavailableError), and when some attempt is healthy it
stops at the first healthy one and issues exactly one create-index call
carrying the embedder's reported dimension and the "cosine" metric;
EndeeClient.create_index in turn treats HTTP 409 (index already exists) as
success, so the call ensures the index exists. -/
theorem init_rag_spec (name : String) (dim : Nat) (health : Nat → Bool) :
    ((∀ k, k < RAGService.maxRetries → health k = false) →
      RAGService.initRag name dim health =
        Except.error "Endee server is not responding") ∧
    (∀ polls call,
      RAGService.initRag name dim health = Except.ok (polls, call) →
      1 ≤ polls ∧ polls ≤ RAGService.maxRetries ∧
        health (polls - 1) = true ∧
        (∀ j, j < polls - 1 → health j = false) ∧
        call = ⟨name, dim, "cosine"⟩) ∧
    EndeeClient.create_index (Except.error 409) = Except.ok () ∧
    EndeeClient.create_index (Except.ok ()) = Except.ok () := by
  refine ⟨?_, ?_, rfl, rfl⟩
  · intro h
    have hn : RAGService.findHealthy health RAGService.maxRetries 0 = none :=
      findHealthy_eq_none health _ 0 (fun j hj => by simpa using h j hj)
    simp [RAGService.initRag, hn]
  · intro polls call h
    rcases hf : RAGService.findHealthy health RAGService.maxRetries 0 with _ | k
    · rw [RAGService.initRag, hf] at h
      exact absurd h (by simp)
    · rw [RAGService.initRag, hf] at h
      obtain ⟨hp, hc⟩ : k + 1 = polls ∧
          (⟨name, dim, "cosine"⟩ : RAGService.CreateIndexCall) = call := by
        have := Except.ok.inj h
        exact ⟨congrArg Prod.fst this, congrArg Prod.snd this⟩
      obtain ⟨hk0, hkn, hkh, hkb⟩ :=
        findHealthy_some health RAGService.maxRetries 0 k hf
      subst hp
      refine ⟨by omega, ?_, ?_, ?_, hc.symm⟩
      · have : RAGService.maxRetries = 10 := rfl
        omega
      · simpa using hkh
      · intro j hj
        exact hkb j (Nat.zero_le j) (by omega)

/-- Witness for C8: with a never-healthy store the startup fails with the
fatal error. -/
theorem init_rag_spec_witness :
    RAGService.initRag "documents" 384 (fun _ => false) =
      Except.error "Endee server is not responding" :=
  (init_rag_spec "documents" 384 (fun _ => false)).1 (fun _ _ => rfl)

/-- Loop invariant of the chunking loop under a valid configuration
(0 ≤ overlap < chunk_size): started at cursor i inside the content with
fuel at least the remaining distance, the loop terminates and appends a
non-empty run of chunks whose indices continue those of the accumulator,
whose first chunk starts at i, whose last chunk ends at the content length,
whose spans are non-empty, start at or after i and end within the content,
and in which every chunk starts at or before the end of its predecessor. -/
lemma chunkLoop_spec (dn : String) (content : List Char) (cs ov : Int)
    (hov : 0 ≤ ov) (hlt : ov < cs) :
    ∀ fuel : Nat, ∀ i : Int, ∀ acc : List Chunk,
      0 ≤ i → i < (content.length : Int) →
      (content.length : Int) - i ≤ (fuel : Int) →
      ∃ L : List Chunk,
        chunkLoop dn content cs ov fuel i acc = some (acc ++ L) ∧
        L ≠ [] ∧
        (∀ j : Nat, ∀ h : j < L.length,
          (L.get ⟨j, h⟩).chunk_index = acc.length + j) ∧
        (∀ c, L.head? = some c → c.start_pos = i) ∧
        (∀ c, L.getLast? = some c → c.end_pos = (content.length : Int)) ∧
        (∀ c ∈ L, i ≤ c.start_pos ∧ c.start_pos < c.end_pos ∧
          c.end_pos ≤ (content.length : Int)) ∧
        List.Chain' (fun c d => d.start_pos ≤ c.end_pos) L := by
  intro fuel
  induction fuel with
  | zero =>
    intro i acc h0 hi hf
    exfalso
    push_cast at hf
    omega
  | succ n ih =>
    intro i acc h0 hi hf
    rw [chunkLoop_succ, if_pos hi]
    by_cases hend : (content.length : Int) ≤ min (i + cs) (content.length : Int)
    · rw [if_pos hend]
      have he : min (i + cs) (content.length : Int) = (content.length : Int) :=
        le_antisymm (min_le_right _ _) hend
      rw [he]
      refine ⟨[⟨pySlice content i (content.length : Int), dn, acc.length,
        content.length, i, (content.length : Int)⟩],
        rfl, by simp, ?_, ?_, ?_, ?_, List.chain'_singleton _⟩
      · intro j h
        have hj0 : j = 0 := Nat.lt_one_iff.mp (by simpa using h)
        subst hj0
        simp
      · intro c hc
        obtain rfl := Option.some.inj (by simpa using hc)
        rfl
      · intro c hc
        obtain rfl := Option.some.inj (by simpa using hc)
        rfl
      · intro c hc
        obtain rfl := List.mem_singleton.mp hc
        exact ⟨le_rfl, hi, le_rfl⟩
    · rw [if_neg hend]
      push_neg at hend
      have hics : i + cs < (content.length : Int) := by
        by_contra hcon
        push_neg at hcon
        rw [min_eq_right hcon] at hend
        exact lt_irrefl _ hend
      have he : min (i + cs) (content.length : Int) = i + cs :=
        min_eq_left (le_of_lt hics)
      rw [he]
      have h0' : 0 ≤ i + (cs - ov) := by omega
      have hi' : i + (cs - ov) < (content.length : Int) := by omega
      have hf' : (content.length : Int) - (i + (cs - ov)) ≤ (n : Int) := by
        push_cast at hf
        omega
      obtain ⟨L', hrun, hne', hidx', hhead', hlast', hspan', hchain'⟩ :=
        ih (i + (cs - ov))
          (acc ++ [⟨pySlice content i (i + cs), dn, acc.length,
            content.length, i, i + cs⟩]) h0' hi' hf'
      refine ⟨⟨pySlice content i (i + cs), dn, acc.length,
        content.length, i, i + cs⟩ :: L', ?_, by simp, ?_, ?_, ?_, ?_, ?_⟩
      · rw [hrun]
        simp
      · intro j h
        cases j with
        | zero => simp
        | succ j =>
          have hj : j < L'.length := by
            have := h
            simp only [List.length_cons] at this
            omega
          have hind := hidx' j hj
          rw [List.get_cons_succ]
          rw [hind]
          simp only [List.length_append, List.length_singleton]
          omega
      · intro c hc
        obtain rfl := Option.some.inj (by simpa using hc)
        rfl
      · intro c hc
        cases L' with
        | nil => exact absurd rfl hne'
        | cons b M =>
          rw [List.getLast?_cons_cons] at hc
          exact hlast' c hc
      · intro c hc
        rcases List.mem_cons.mp hc with rfl | hmem
        · exact ⟨le_rfl, by show i < i + cs; omega, le_of_lt hics⟩
        · obtain ⟨hs1, hs2, hs3⟩ := hspan' c hmem
          exact ⟨by omega, hs2, hs3⟩
      · refine List.chain'_cons'.mpr ⟨?_, hchain'⟩
        intro b hb
        have hb' := hhead' b (Option.mem_def.mp hb)
        rw [hb']
        show i + (cs - ov) ≤ i + cs
        omega

/-- A non-empty chain of chunks whose first chunk starts at or before p and
whose last chunk ends after p contains a chunk whose span holds p. -/
lemma chain_cover (p : Int) :
    ∀ L : List Chunk,
      List.Chain' (fun c d => d.start_pos ≤ c.end_pos) L →
      (∀ c, L.head? = some c → c.start_pos ≤ p) →
      (∀ c, L.getLast? = some c → p < c.end_pos) →
      L ≠ [] →
      ∃ c ∈ L, c.start_pos ≤ p ∧ p < c.end_pos := by
  intro L
  induction L with
  | nil => intro _ _ _ h; exact absurd rfl h
  | cons a M ih =>
    intro hchain hhead hlast _
    by_cases hp : p < a.end_pos
    · exact ⟨a, List.mem_cons_self a M, hhead a rfl, hp⟩
    · push_neg at hp
      cases M with
      | nil => exact absurd (hlast a rfl) (by omega)
      | cons b M' =>
        obtain ⟨hab, hchain'⟩ := List.chain'_cons.mp hchain
        have hhead' : ∀ c, (b :: M').head? = some c → c.start_pos ≤ p := by
          intro c hc'
          have hbc : b = c := Option.some.inj (by simpa using hc')
          subst hbc
          exact le_trans hab hp
        have hlast' : ∀ c, (b :: M').getLast? = some c → p < c.end_pos := by
          intro c hc'
          exact hlast c (by rw [List.getLast?_cons_cons]; exact hc')
        obtain ⟨c, hc, h1, h2⟩ := ih hchain' hhead' hlast' (by simp)
        exact ⟨c, List.mem_cons_of_mem a hc, h1, h2⟩

/-- Claim C2: for every content and every valid configuration
(chunk_size > overlap ≥ 0) the chunker terminates and its chunks cover
[0, L) with no gaps: the first chunk starts at 0, every later chunk starts
at or before the previous chunk's end, the last chunk ends at L, the
chunk_index values are exactly 0..n-1 in emission order, every position of
[0, L) lies inside some chunk's span, and empty content yields the empty
sequence of chunks. -/
theorem chunk_document_coverage (dn : String) (content : List Char)
    (cs ov : Int) (hov : 0 ≤ ov) (hlt : ov < cs) :
    ∃ chunks, chunk_document dn content cs ov = some chunks ∧
      (content.length = 0 → chunks = []) ∧
      (content.length ≠ 0 → chunks ≠ []) ∧
      (∀ j : Nat, ∀ h : j < chunks.length,
        (chunks.get ⟨j, h⟩).chunk_index = j) ∧
      (∀ c ∈ chunks, 0 ≤ c.start_pos ∧ c.start_pos < c.end_pos ∧
        c.end_pos ≤ (content.length : Int)) ∧
      List.Chain' (fun c d => d.start_pos ≤ c.end_pos) chunks ∧
      (∀ c, chunks.head? = some c → c.start_pos = 0) ∧
      (∀ c, chunks.getLast? = some c → c.end_pos = (content.length : Int)) ∧
      (∀ p : Int, 0 ≤ p → p < (content.length : Int) →
        ∃ c ∈ chunks, c.start_pos ≤ p ∧ p < c.end_pos) := by
  by_cases hlen : content.length = 0
  · have hneg : ¬ ((0 : Int) < (content.length : Int)) := by simp [hlen]
    refine ⟨[], ?_, fun _ => rfl, fun hne => absurd hlen hne, by simp,
      by simp, List.chain'_nil, by simp, by simp, ?_⟩
    · rw [chunk_document, chunkLoop_succ, if_neg hneg]
    · intro p hp0 hp
      rw [hlen] at hp
      exfalso
      push_cast at hp
      omega
  · have hlenpos : 0 < content.length := Nat.pos_of_ne_zero hlen
    have hi : (0 : Int) < (content.length : Int) := by exact_mod_cast hlenpos
    have hf : (content.length : Int) - 0 ≤ ((content.length + 1 : Nat) : Int) := by
      push_cast
      omega
    obtain ⟨L, hrun, hne, hidx, hhead, hlast, hspan, hchain⟩ :=
      chunkLoop_spec dn content cs ov hov hlt (content.length + 1) 0 []
        le_rfl hi hf
    refine ⟨L, ?_, fun h => absurd h hlen, fun _ => hne, ?_, ?_, hchain,
      ?_, hlast, ?_⟩
    · rw [chunk_document, hrun]
      simp
    · intro j h
      simpa using hidx j h
    · intro c hc
      obtain ⟨h1, h2, h3⟩ := hspan c hc
      exact ⟨h1, h2, h3⟩
    · intro c hc
      exact hhead c hc
    · intro p hp0 hp
      refine chain_cover p L hchain ?_ ?_ hne
      · intro c hc
        rw [hhead c hc]
        exact hp0
      · intro c hc
        rw [hlast c hc]
        exact hp

/-- Witness for C2 at the concrete input content = "abcd", chunk_size = 3,
overlap = 1. -/
theorem chunk_document_coverage_witness :
    ∃ chunks, chunk_document "w" ['a', 'b', 'c', 'd'] 3 1 = some chunks ∧
      (List.length ['a', 'b', 'c', 'd'] = 0 → chunks = []) ∧
      (List.length ['a', 'b', 'c', 'd'] ≠ 0 → chunks ≠ []) ∧
      (∀ j : Nat, ∀ h : j < chunks.length,
        (chunks.get ⟨j, h⟩).chunk_index = j) ∧
      (∀ c ∈ chunks, 0 ≤ c.start_pos ∧ c.start_pos < c.end_pos ∧
        c.end_pos ≤ ((List.length ['a', 'b', 'c', 'd'] : Nat) : Int)) ∧
      List.Chain' (fun c d => d.start_pos ≤ c.end_pos) chunks ∧
      (∀ c, chunks.head? = some c → c.start_pos = 0) ∧
      (∀ c, chunks.getLast? = some c →
        c.end_pos = ((List.length ['a', 'b', 'c', 'd'] : Nat) : Int)) ∧
      (∀ p : Int, 0 ≤ p → p < ((List.length ['a', 'b', 'c', 'd'] : Nat) : Int) →
        ∃ c ∈ chunks, c.start_pos ≤ p ∧ p < c.end_pos) :=
  chunk_document_coverage "w" ['a', 'b', 'c', 'd'] 3 1 (by norm_num)
    (by norm_num)
